import Mathlib

/-!
Verification of the shared DSP core of the DaisyExamples patches:
the linear-congruential PRNG, the Perlin/fBm coherent-noise stack and its
permutation table, the slew limiters, the quantizers, and the single-voice
MIDI note/gate state machines.  Every definition is a shallow embedding of
the corresponding C++ routine; float arithmetic is modelled over the exact
rationals (or the reals where a logarithm is involved), and 32-bit unsigned
arithmetic over naturals reduced modulo 2 ^ 32.
-/

namespace Randos

/-- Linear congruential generator from Randos.cpp: the 32-bit update
seed * 1664525 + 1013904223 (uint32_t arithmetic, hence mod 2 ^ 32). -/
def LCG_Next (seed : Nat) : Nat :=
  (seed * 1664525 + 1013904223) % 2 ^ 32

/-- Rand01 from Randos.cpp: advance the seed, take the high 24 bits
(right shift by 8 of a uint32_t) and scale by 1 / 16777216.  Returns the
float output (exact, as a rational) together with the updated seed. -/
def Rand01 (seed : Nat) : Rat × Nat :=
  let s := LCG_Next seed
  let r : Nat := s / 2 ^ 8
  ((r : Rat) * (1 / 16777216), s)

/-- Stream of successive Rand01 outputs started from a given seed. -/
def Rand01Stream : Nat → Nat → Rat
  | seed, 0 => (Rand01 seed).1
  | seed, n + 1 => Rand01Stream (Rand01 seed).2 n

end Randos

namespace PatchFZ

/-- Reference permutation table from FractalZoom.cpp.  The C declaration is
uint8_t s_permRef[256] with the initializer list transcribed verbatim below;
the list has 253 entries, so the C compiler zero-fills the final three
array slots (see s_permRef). -/
def s_permRefInit : List Nat := [
    151,160,137,91,90,15,131,13,201,95,96,53,194,233,7,225,
    140,36,103,30,69,142,8,99,37,240,21,10,23,190,6,148,
    247,120,234,75,0,26,197,62,94,252,219,203,117,35,11,32,
    57,177,33,88,237,149,56,87,174,20,125,136,171,168,68,175,
    74,165,71,134,139,48,27,166,77,146,158,231,83,111,229,122,
    60,211,133,230,220,105,92,41,55,46,245,40,244,102,143,54,
    65,25,63,161,1,216,80,73,209,76,132,187,208,89,18,169,
    200,196,135,130,116,188,159,86,164,100,109,198,173,186,3,64,
    52,217,226,250,124,123,5,202,38,147,118,126,255,82,85,212,
    207,206,59,227,47,16,58,17,182,189,28,42,223,183,170,213,
    119,248,152,2,44,154,163,70,221,153,101,155,167,43,172,9,
    129,22,39,253,19,98,108,110,79,113,224,232,178,185,112,104,
    218,246,97,228,251,34,242,193,238,210,144,12,191,179,162,241,
    81,51,145,235,249,14,239,107,49,192,214,31,181,199,106,157,
    184,84,204,176,115,121,50,45,127,4,150,254,138,236,205,93,
    222,114,67,29,24,72,243,141,128,195,78,66,215]

/-- The actual 256-entry array s_permRef: the 253 listed initializers
followed by the three zero-filled slots. -/
def s_permRef : List Nat := s_permRefInit ++ List.replicate 3 0

/-- Result of InitPerlinPermutation from FractalZoom.cpp: s_perm[512] with
s_perm[i] = s_perm[i+256] = s_permRef[i] for i < 256, i.e. two copies of
s_permRef back to back. -/
def s_perm : List Nat := s_permRef ++ s_permRef

/-- Array lookup s_perm[i] as a total function (indices used by the code
are always in bounds). -/
def s_permAt (i : Nat) : Nat := s_perm.getD i 0

end PatchFZ

namespace PatchFZ

/-- Fade function from FractalZoom.cpp: t*t*t*(t*(t*6 - 15) + 10). -/
def Fade (t : Rat) : Rat :=
  t * t * t * (t * (t * 6 - 15) + 10)

/-- Grad1D from FractalZoom.cpp: +x when the low bit of the hash is set,
otherwise -x. -/
def Grad1D (hash : Nat) (x : Rat) : Rat :=
  if hash % 2 = 1 then x else -x

/-- PerlinNoise1D from FractalZoom.cpp.  xi = floor(x); xf = x - xi;
X = xi AND 255 (two's-complement int bitwise AND, i.e. xi mod 256);
u = Fade(xf); the two hashes come from the duplicated permutation table;
the result is (1 - u) * g1 + u * g2. -/
def PerlinNoise1D (x : Rat) : Rat :=
  let xi : Int := ⌊x⌋
  let xf : Rat := x - (xi : Rat)
  let X : Nat := (xi % 256).toNat
  let u := Fade xf
  let hashA := s_permAt X
  let hashB := s_permAt (X + 1)
  let g1 := Grad1D hashA xf
  let g2 := Grad1D hashB (xf - 1)
  (1 - u) * g1 + u * g2

/-- fBm1D from FractalZoom.cpp: octave loop accumulating
PerlinNoise1D(x * freq) * amp with freq starting at 1 and multiplied by
lacunarity, amp starting at 1 and multiplied by gain, after each octave.
The recursion unrolls the loop from its i-th iteration onward, carrying the
current freq and amp. -/
def fBm1Dgo (x : Rat) (lacunarity gain : Rat) : Nat → Rat → Rat → Rat
  | 0, _, _ => 0
  | n + 1, freq, amp =>
      PerlinNoise1D (x * freq) * amp + fBm1Dgo x lacunarity gain n (freq * lacunarity) (amp * gain)

/-- fBm1D entry point: octaves iterations starting from freq = 1, amp = 1. -/
def fBm1D (x : Rat) (octaves : Nat) (lacunarity gain : Rat) : Rat :=
  fBm1Dgo x lacunarity gain octaves 1 1

/-- QuantizeFractal from FractalZoom.cpp (the free, unquantized mode):
clamp the fractal value to [-2, 2], shift to [0, 4], map linearly onto
[50, 2000] Hz. -/
def QuantizeFractal (val : Rat) : Rat :=
  let v := if val < -2 then -2 else if val > 2 then 2 else val
  let shifted := v + 2
  50 + shifted * (1950 / 4)

end PatchFZ

/-- Shared state record of the SlewLimiter classes (members sr_, value_,
dest_, rise_, fall_ in all three files). -/
structure SlewState where
  sr : Rat
  value : Rat
  dest : Rat
  rise : Rat
  fall : Rat

namespace Randos

/-- SlewLimiter::Process from Randos.cpp (textually identical in
patch/FractalZoom).  diff = dest - value; for a positive diff the step is
diff / (rise * sr), for a negative diff it is diff / (fall * sr); if the
step magnitude exceeds the remaining distance the value snaps to dest,
otherwise the step is added; a zero diff leaves the state unchanged.
Process mutates value_ and returns it, so the model returns the whole
updated state (the returned sample is the value field). -/
def SlewLimiter.Process (s : SlewState) : SlewState :=
  let diff := s.dest - s.value
  if diff > 0 then
    let step := diff / (s.rise * s.sr)
    if |step| > |diff| then { s with value := s.dest }
    else { s with value := s.value + step }
  else if diff < 0 then
    let step := diff / (s.fall * s.sr)
    if |step| > |diff| then { s with value := s.dest }
    else { s with value := s.value + step }
  else s

end Randos

namespace PatchFZ

/-- SlewLimiter::Process from patch/FractalZoom/FractalZoom.cpp; the body
is textually identical to the Randos one, in particular it has no epsilon
guard on the time constant. -/
def SlewLimiter.Process (s : SlewState) : SlewState :=
  let diff := s.dest - s.value
  if diff > 0 then
    let step := diff / (s.rise * s.sr)
    if |step| > |diff| then { s with value := s.dest }
    else { s with value := s.value + step }
  else if diff < 0 then
    let step := diff / (s.fall * s.sr)
    if |step| > |diff| then { s with value := s.dest }
    else { s with value := s.value + step }
  else s

/-- Predicate recording when patch/FractalZoom SlewLimiter::Process
evaluates its step division diff / (time * sr) with a zero denominator:
the rise branch runs whenever diff > 0 and the fall branch whenever
diff < 0, with no guard on the time constant. -/
def SlewLimiter.ProcessDividesByZero (s : SlewState) : Bool :=
  let diff := s.dest - s.value
  if diff > 0 then s.rise * s.sr == 0
  else if diff < 0 then s.fall * s.sr == 0
  else false

end PatchFZ

namespace PodFZ

/-- SlewLimiter::Process from pod/FractalZoom/FractalZoom.cpp.  This
version selects time = rise when diff >= 0 and fall otherwise, and guards
the division: when time < 1e-6 the value snaps to dest immediately.
(The float literal 1.0e-6f is modelled by the rational 1/1000000.) -/
def SlewLimiter.Process (s : SlewState) : SlewState :=
  let diff := s.dest - s.value
  let time := if diff ≥ 0 then s.rise else s.fall
  if time < 1 / 1000000 then { s with value := s.dest }
  else
    let step := diff / (time * s.sr)
    if |step| > |diff| then { s with value := s.dest }
    else { s with value := s.value + step }

/-- Base frequency gBaseFreq from pod/FractalZoom/FractalZoom.cpp (A1). -/
def gBaseFreq : Rat := 55

/-- Just-intonation major scale table majorJust7_scale from
pod/FractalZoom/FractalZoom.cpp. -/
def majorJust7_scale : List Rat := [1, 9/8, 5/4, 4/3, 3/2, 5/3, 15/8]

/-- QuantizeJustMajor from pod/FractalZoom/FractalZoom.cpp: clamp the
fractal value to [-2, 2], shift to [0, 4], scale by 28/4 onto [0, 28),
floor to a step, clamp the step to [0, 27], then index the just scale with
an octave doubling every 7 steps; the result is gBaseFreq times the ratio. -/
def QuantizeJustMajor (fractVal : Rat) : Rat :=
  let v := if fractVal < -2 then -2 else if fractVal > 2 then 2 else fractVal
  let shifted := v + 2
  let scaled := shifted * (28 / 4)
  let step0 : Int := ⌊scaled⌋
  let step : Int := if step0 < 0 then 0 else if step0 > 27 then 27 else step0
  let ratio : Rat :=
    if step < 7 then majorJust7_scale.getD step.toNat 0
    else if step < 14 then 2 * majorJust7_scale.getD (step - 7).toNat 0
    else if step < 21 then 4 * majorJust7_scale.getD (step - 14).toNat 0
    else 8 * majorJust7_scale.getD (step - 21).toNat 0
  gBaseFreq * ratio

end PodFZ

namespace JustInTone

/-- Just-intonation lookup table justRatios from JustInTone.cpp. -/
def justRatios : List Rat :=
  [1, 16/15, 9/8, 6/5, 5/4, 4/3, 45/32, 3/2, 8/5, 5/3, 9/5, 15/8]

/-- Octave part of QuantizeCV from JustInTone.cpp: octave = floor(inputCV). -/
noncomputable def QuantizeCV.octave (inputCV : ℝ) : ℤ := ⌊inputCV⌋

/-- Raw nearest-semitone index of QuantizeCV before carry handling:
round(frac * 12) with frac = inputCV - floor(inputCV).  The fractional
part is nonnegative, so std::round (half away from zero) agrees with
Lean's round (half up). -/
noncomputable def QuantizeCV.rawSemitone (inputCV : ℝ) : ℤ :=
  round ((inputCV - (⌊inputCV⌋ : ℝ)) * 12)

/-- Semitone index of QuantizeCV after carry handling: a rounded index of
12 wraps to 0 (with the octave incremented). -/
noncomputable def QuantizeCV.semitone (inputCV : ℝ) : ℤ :=
  if 12 ≤ QuantizeCV.rawSemitone inputCV then 0 else QuantizeCV.rawSemitone inputCV

/-- Octave of QuantizeCV after carry handling. -/
noncomputable def QuantizeCV.octaveAdj (inputCV : ℝ) : ℤ :=
  if 12 ≤ QuantizeCV.rawSemitone inputCV then QuantizeCV.octave inputCV + 1
  else QuantizeCV.octave inputCV

/-- QuantizeCV from JustInTone.cpp.  Equal temperament rebuilds
octave + semitoneIndex / 12; just intonation returns
octave + log2(justRatios[semitoneIndex]). -/
noncomputable def QuantizeCV (inputCV : ℝ) (useJustIntonation : Bool) : ℝ :=
  if !useJustIntonation then
    (QuantizeCV.octaveAdj inputCV : ℝ) + (QuantizeCV.semitone inputCV : ℝ) / 12
  else
    (QuantizeCV.octaveAdj inputCV : ℝ)
      + Real.logb 2 ((justRatios.getD (QuantizeCV.semitone inputCV).toNat 0 : ℚ) : ℝ)

end JustInTone

namespace Randos

/-- ActiveNote record from Randos.cpp. -/
structure ActiveNote where
  noteOn : Bool
  midinote : Nat
  seed : Nat
  phase : Rat

/-- Note state together with the gate GPIO level driven by SetGate. -/
structure State where
  note : ActiveNote
  gate : Bool

/-- Initial state: g_note = {false, 0, 0, 0.f} and SetGate(false) in main. -/
def initState : State := ⟨⟨false, 0, 0, 0⟩, false⟩

/-- A well-formed MIDI channel-voice message as seen by HandleMidi
(two data bytes, each masked with 0x7F by the handler). -/
inductive MidiMsg where
  | NoteOnMsg (d0 d1 : Nat)
  | NoteOffMsg (d0 d1 : Nat)

/-- HandleMidi from Randos.cpp, one event.  NoteOn with nonzero velocity
(re)triggers the voice, stores the note number and the deterministic seed
n * 12345 + 99999 (uint32_t arithmetic), resets the step phase and raises
the gate.  NoteOn with zero velocity acts as note-off when the stored note
number matches.  NoteOff clears the voice and drops the gate only when the
voice is on and the note number matches. -/
def HandleMidi (msg : MidiMsg) (s : State) : State :=
  match msg with
  | .NoteOnMsg d0 d1 =>
    let n := d0 % 128
    let vel := d1 % 128
    if vel > 0 then
      { note := { noteOn := true, midinote := n,
                  seed := (n * 12345 + 99999) % 2 ^ 32, phase := 0 },
        gate := true }
    else
      if s.note.midinote == n then
        { note := { s.note with noteOn := false }, gate := false }
      else s
  | .NoteOffMsg d0 _ =>
    let n := d0 % 128
    if s.note.noteOn && (s.note.midinote == n) then
      { note := { s.note with noteOn := false }, gate := false }
    else s

end Randos

namespace PatchFZ

/-- ActiveNote record from patch/FractalZoom/FractalZoom.cpp: on flag,
phase in seconds and the 5-second duration. -/
structure ActiveNote where
  noteOn : Bool
  phase : Rat
  duration : Rat

/-- Patch state: the note, the zoom parameters captured at note-on, and
the gate level driven by SetGate.  The zoom fields live in the reals
because the knob mapping applies powf(3, k0). -/
structure State where
  note : ActiveNote
  zoomFactor : ℝ
  zoomPoint : ℝ
  gate : Bool

/-- Initial state: g_note = {false, 0.f, 5.f}, g_zoomFactor = 1,
g_zoomPoint = 0, SetGate(false) in main. -/
noncomputable def initState : State := ⟨⟨false, 0, 5⟩, 1, 0, false⟩

/-- MIDI messages as seen by the patch FractalZoom HandleMidi. -/
inductive MidiMsg where
  | NoteOnMsg (d0 d1 : Nat)
  | NoteOffMsg (d0 d1 : Nat)

/-- HandleMidi from patch/FractalZoom/FractalZoom.cpp, one event.  The
knob readings (controls 0 and 1, each in [0, 1]) are inputs k0 and k1;
note-on with nonzero velocity restarts the 5-second note, captures
zoomFactor = 3 ^ k0 and zoomPoint = k1 * 5 and raises the gate; note-on
with zero velocity and NoteOff unconditionally clear the voice and drop
the gate - the handler never consults the note number. -/
noncomputable def HandleMidi (msg : MidiMsg) (k0 k1 : ℝ) (s : State) : State :=
  match msg with
  | .NoteOnMsg _ d1 =>
    let vel := d1 % 128
    if vel > 0 then
      { s with note := { s.note with noteOn := true, phase := 0 },
               zoomFactor := (3 : ℝ) ^ k0,
               zoomPoint := k1 * 5,
               gate := true }
    else
      { s with note := { s.note with noteOn := false }, gate := false }
  | .NoteOffMsg _ _ =>
    { s with note := { s.note with noteOn := false }, gate := false }

/-- Per-sample note-timing step of the patch FractalZoom AudioCallback:
when the voice is on, the phase advances by inc = 1 / sampleRate and the
voice ends (gate dropped) once the phase reaches the duration. -/
noncomputable def Advance (inc : Rat) (s : State) : State :=
  if s.note.noteOn then
    let ph := s.note.phase + inc
    if ph ≥ s.note.duration then
      { s with note := { s.note with noteOn := false, phase := ph }, gate := false }
    else
      { s with note := { s.note with phase := ph } }
  else s

end PatchFZ

set_option maxRecDepth 40000

/-- Claim C1 (code bug): the spec says the first 256 entries of the
initialized permutation table are a permutation of 0..255 with the second
256 mirroring the first.  The mirror property and the 512-entry layout do
hold, but the first 256 entries are not a permutation of 0..255: the C
initializer list of s_permRef has only 253 entries (the canonical Perlin
table minus its final 61, 156, 180), so the zero-filled tail makes the
value 0 occur four times while 61 never occurs.  This theorem exhibits the
missing value 61 and proves the rest of the claim. -/
theorem permTable_mirror_but_not_permutation :
    61 ∈ List.range 256 ∧ 61 ∉ PatchFZ.s_perm.take 256 ∧
    ¬ (PatchFZ.s_perm.take 256).Perm (List.range 256) ∧
    PatchFZ.s_perm.length = 512 ∧
    ((List.range 256).all fun i =>
      PatchFZ.s_perm.getD (i + 256) 0 == PatchFZ.s_perm.getD i 0) = true := by
  have h61r : 61 ∈ List.range 256 := by decide
  have h61 : 61 ∉ PatchFZ.s_perm.take 256 := by decide
  exact ⟨h61r, h61, fun h => h61 (h.mem_iff.mpr h61r), by decide, by decide⟩

/-- Claim C2: one Rand01 draw updates the seed by
s * 1664525 + 1013904223 modulo 2^32, returns the high 24 bits of the
updated seed scaled by 2^-24, the returned value lies in [0, 1), and equal
seeds yield identical output sequences. -/
theorem lcg_rand01_spec (seed : Nat) :
    (Randos.Rand01 seed).2 = (seed * 1664525 + 1013904223) % 2 ^ 32 ∧
    (Randos.Rand01 seed).1 = (((Randos.Rand01 seed).2 / 2 ^ 8 : Nat) : ℚ) * ((2 : ℚ) ^ 24)⁻¹ ∧
    0 ≤ (Randos.Rand01 seed).1 ∧ (Randos.Rand01 seed).1 < 1 ∧
    ∀ seed2 : Nat, seed = seed2 →
      Randos.Rand01Stream seed = Randos.Rand01Stream seed2 := by
  refine ⟨rfl, by norm_num [Randos.Rand01], ?_, ?_, ?_⟩
  · simp [Randos.Rand01]
  · have h1 : Randos.LCG_Next seed < 2 ^ 32 := Nat.mod_lt _ (by norm_num)
    have h2 : Randos.LCG_Next seed / 2 ^ 8 < 2 ^ 24 := Nat.div_lt_of_lt_mul (by omega)
    have h3 : ((Randos.LCG_Next seed / 2 ^ 8 : Nat) : ℚ) < 16777216 := by
      exact_mod_cast h2
    have h4 : ((Randos.LCG_Next seed / 2 ^ 8 : Nat) : ℚ) * (1 / 16777216) < 1 := by
      have h5 := mul_lt_mul_of_pos_right h3 (show (0 : ℚ) < 1 / 16777216 by norm_num)
      linarith
    simpa [Randos.Rand01] using h4
  · intro seed2 h
    rw [h]

/-- Witness for lcg_rand01_spec at seed 0. -/
theorem lcg_rand01_spec_witness :
    (Randos.Rand01 0).2 = (0 * 1664525 + 1013904223) % 2 ^ 32 ∧
    Randos.Rand01Stream 0 = Randos.Rand01Stream 0 :=
  ⟨(lcg_rand01_spec 0).1, (lcg_rand01_spec 0).2.2.2.2 0 rfl⟩

/-- Claim C3 counterexample: on NoteOn(60, 100) the stored seed is
60 * 12345 + 99999 = 840699, not the 841139 asserted by the spec scenario. -/
theorem noteOn_seed_60_ne_spec_value :
    (Randos.HandleMidi (.NoteOnMsg 60 100) Randos.initState).note.seed = 840699 ∧
    (840699 : Nat) ≠ 841139 := ⟨rfl, by decide⟩

/-- Claim C3 amended: on a note-on with nonzero velocity the voice seed is
set to n * 12345 + 99999 (no 32-bit wrap occurs since n <= 127); for note
60 the seed is 840699. -/
theorem noteOn_seed_formula (d0 d1 : Nat) (s : Randos.State)
    (hvel : 0 < d1 % 128) :
    (Randos.HandleMidi (.NoteOnMsg d0 d1) s).note.seed
      = (d0 % 128) * 12345 + 99999 ∧
    (Randos.HandleMidi (.NoteOnMsg 60 100) s).note.seed = 840699 := by
  have hn : d0 % 128 < 128 := Nat.mod_lt _ (by norm_num)
  constructor
  · simp only [Randos.HandleMidi, hvel, if_pos]
    exact Nat.mod_eq_of_lt (by omega)
  · rfl

/-- Witness for noteOn_seed_formula at NoteOn(60, 100). -/
theorem noteOn_seed_formula_witness :
    (Randos.HandleMidi (.NoteOnMsg 60 100) Randos.initState).note.seed
      = (60 % 128) * 12345 + 99999 :=
  (noteOn_seed_formula 60 100 Randos.initState (by norm_num)).1

/-- Claim C5 counterexample: the patch/FractalZoom (and Randos)
SlewLimiter::Process has no epsilon guard: with rise = 0 and a positive
diff it evaluates the step division diff / (rise * sr) with a zero
denominator, so the claim that the division is guarded fails there.  The
pod version does guard: on the same state it snaps straight to dest. -/
theorem patch_slew_divides_by_zero :
    PatchFZ.SlewLimiter.ProcessDividesByZero ⟨48000, 0, 1, 0, 1/100⟩ = true ∧
    (PodFZ.SlewLimiter.Process ⟨48000, 0, 1, 0, 1/100⟩).value = 1 := by
  constructor
  · simp [PatchFZ.SlewLimiter.ProcessDividesByZero]
  · simp [PodFZ.SlewLimiter.Process]

/-- Claim C5 amended: in the pod/FractalZoom SlewLimiter, when the
applicable time constant (rise for a nonnegative difference, fall for a
negative one) is below the 1e-6 guard - in particular when it is 0 - the
guard fires and Process returns the destination in a single sample without
evaluating the step division. -/
theorem pod_slew_instant_guard (s : SlewState)
    (h : (if s.dest - s.value ≥ 0 then s.rise else s.fall) < 1 / 1000000) :
    PodFZ.SlewLimiter.Process s = { s with value := s.dest } := by
  simp only [PodFZ.SlewLimiter.Process]
  rw [if_pos h]

/-- Witness for pod_slew_instant_guard: rise = 0 snaps to dest. -/
theorem pod_slew_instant_guard_witness :
    PodFZ.SlewLimiter.Process ⟨48000, 0, 1, 0, 1/100⟩
      = { sr := 48000, value := 1, dest := 1, rise := 0, fall := 1/100 } :=
  pod_slew_instant_guard ⟨48000, 0, 1, 0, 1/100⟩ (by norm_num)

/-- Claim C6 counterexample: in patch/FractalZoom, after NoteOn(60, 100)
the voice is sounding, yet a NoteOff carrying the different note number 61
still moves the voice to idle and drops the gate - the handler never
consults the note number, contradicting the claim that a NoteOff for a
different note leaves the voice sounding. -/
theorem patchfz_noteoff_ignores_note :
    (PatchFZ.HandleMidi (.NoteOnMsg 60 100) 0 0 PatchFZ.initState).note.noteOn = true ∧
    (PatchFZ.HandleMidi (.NoteOffMsg 61 0) 0 0
      (PatchFZ.HandleMidi (.NoteOnMsg 60 100) 0 0 PatchFZ.initState)).note.noteOn = false ∧
    (PatchFZ.HandleMidi (.NoteOffMsg 61 0) 0 0
      (PatchFZ.HandleMidi (.NoteOnMsg 60 100) 0 0 PatchFZ.initState)).gate = false := by
  refine ⟨?_, rfl, rfl⟩
  rfl

/-- Claim C6 amended: in Randos, while the voice is sounding a NoteOff
moves it to idle and drops the gate exactly when its note number matches
the stored one, and a mismatched NoteOff leaves the state untouched; in
patch/FractalZoom any NoteOff ends the voice and drops the gate regardless
of note number (the voice does not even store one). -/
theorem noteoff_matching_behavior :
    (∀ (s : Randos.State) (d0 d1 : Nat), s.note.noteOn = true →
      s.note.midinote ≠ d0 % 128 →
      Randos.HandleMidi (.NoteOffMsg d0 d1) s = s) ∧
    (∀ (s : Randos.State) (d0 d1 : Nat), s.note.noteOn = true →
      s.note.midinote = d0 % 128 →
      (Randos.HandleMidi (.NoteOffMsg d0 d1) s).note.noteOn = false ∧
      (Randos.HandleMidi (.NoteOffMsg d0 d1) s).gate = false) ∧
    (∀ (s : PatchFZ.State) (k0 k1 : ℝ) (d0 d1 : Nat),
      (PatchFZ.HandleMidi (.NoteOffMsg d0 d1) k0 k1 s).note.noteOn = false ∧
      (PatchFZ.HandleMidi (.NoteOffMsg d0 d1) k0 k1 s).gate = false) := by
  refine ⟨?_, ?_, ?_⟩
  · intro s d0 d1 hon hne
    simp [Randos.HandleMidi, hne]
  · intro s d0 d1 hon heq
    simp [Randos.HandleMidi, hon, heq]
  · intro s k0 k1 d0 d1
    simp [PatchFZ.HandleMidi]

/-- Witness for noteoff_matching_behavior: a sounding voice on note 60
survives NoteOff(61) and dies on NoteOff(60). -/
theorem noteoff_matching_behavior_witness :
    Randos.HandleMidi (.NoteOffMsg 61 0)
        ⟨⟨true, 60, 840699, 0⟩, true⟩ = ⟨⟨true, 60, 840699, 0⟩, true⟩ ∧
    (Randos.HandleMidi (.NoteOffMsg 60 0) ⟨⟨true, 60, 840699, 0⟩, true⟩).note.noteOn = false :=
  ⟨noteoff_matching_behavior.1 ⟨⟨true, 60, 840699, 0⟩, true⟩ 61 0 rfl (by decide),
   (noteoff_matching_behavior.2.1 ⟨⟨true, 60, 840699, 0⟩, true⟩ 60 0 rfl rfl).1⟩

/-- Claim C7: in both single-voice patches the gate level always equals
the voice's on flag: the equality holds in the initial state and is
preserved by every note-on, note-off and duration-expiry transition, so
after every transition the gate is high iff the (only) voice is on. -/
theorem gate_iff_voice_on :
    (∀ (msg : Randos.MidiMsg) (s : Randos.State), s.gate = s.note.noteOn →
      (Randos.HandleMidi msg s).gate = (Randos.HandleMidi msg s).note.noteOn) ∧
    Randos.initState.gate = Randos.initState.note.noteOn ∧
    (∀ (msg : PatchFZ.MidiMsg) (k0 k1 : ℝ) (s : PatchFZ.State), s.gate = s.note.noteOn →
      (PatchFZ.HandleMidi msg k0 k1 s).gate = (PatchFZ.HandleMidi msg k0 k1 s).note.noteOn) ∧
    (∀ (inc : Rat) (s : PatchFZ.State), s.gate = s.note.noteOn →
      (PatchFZ.Advance inc s).gate = (PatchFZ.Advance inc s).note.noteOn) ∧
    PatchFZ.initState.gate = PatchFZ.initState.note.noteOn := by
  refine ⟨?_, rfl, ?_, ?_, rfl⟩
  · intro msg s h
    cases msg <;> simp only [Randos.HandleMidi] <;> split_ifs <;> simp_all
  · intro msg k0 k1 s h
    cases msg <;> simp only [PatchFZ.HandleMidi] <;> split_ifs <;> simp_all
  · intro inc s h
    simp only [PatchFZ.Advance]
    split_ifs <;> simp_all

/-- Witness for gate_iff_voice_on: one concrete transition of each kind. -/
theorem gate_iff_voice_on_witness :
    (Randos.HandleMidi (.NoteOnMsg 60 100) Randos.initState).gate
      = (Randos.HandleMidi (.NoteOnMsg 60 100) Randos.initState).note.noteOn ∧
    (PatchFZ.Advance (1/48000) PatchFZ.initState).gate
      = (PatchFZ.Advance (1/48000) PatchFZ.initState).note.noteOn :=
  ⟨gate_iff_voice_on.1 (.NoteOnMsg 60 100) Randos.initState rfl,
   gate_iff_voice_on.2.2.2.1 (1/48000) PatchFZ.initState rfl⟩

/-- One Process call of the Randos slew limiter leaves every field except
value unchanged. -/
lemma randos_slew_fields (s : SlewState) :
    (Randos.SlewLimiter.Process s).rise = s.rise ∧
    (Randos.SlewLimiter.Process s).fall = s.fall ∧
    (Randos.SlewLimiter.Process s).sr = s.sr ∧
    (Randos.SlewLimiter.Process s).dest = s.dest := by
  simp only [Randos.SlewLimiter.Process]
  split_ifs <;> exact ⟨rfl, rfl, rfl, rfl⟩

/-- One Process call of the pod slew limiter leaves every field except
value unchanged. -/
lemma pod_slew_fields (s : SlewState) :
    (PodFZ.SlewLimiter.Process s).rise = s.rise ∧
    (PodFZ.SlewLimiter.Process s).fall = s.fall ∧
    (PodFZ.SlewLimiter.Process s).sr = s.sr ∧
    (PodFZ.SlewLimiter.Process s).dest = s.dest := by
  simp only [PodFZ.SlewLimiter.Process]
  split_ifs <;> exact ⟨rfl, rfl, rfl, rfl⟩

/-- The Randos slew step moves the value up toward (never past) the
destination when it starts below it. -/
lemma randos_slew_step_up (s : SlewState) (hr : 0 < s.rise) (hsr : 0 < s.sr)
    (h : s.value ≤ s.dest) :
    s.value ≤ (Randos.SlewLimiter.Process s).value ∧
    (Randos.SlewLimiter.Process s).value ≤ s.dest := by
  simp only [Randos.SlewLimiter.Process]
  split_ifs with h1 h2 h3 h4 <;> try dsimp only
  · exact ⟨h, le_refl _⟩
  · have hstep : 0 < (s.dest - s.value) / (s.rise * s.sr) :=
      div_pos h1 (mul_pos hr hsr)
    push_neg at h2
    rw [abs_of_pos hstep, abs_of_pos h1] at h2
    exact ⟨by linarith, by linarith⟩
  · exact ⟨h, le_refl _⟩
  · exact absurd h3 (not_lt.mpr (by linarith))
  · exact ⟨le_refl _, h⟩

/-- The Randos slew step moves the value down toward (never past) the
destination when it starts above it. -/
lemma randos_slew_step_down (s : SlewState) (hf : 0 < s.fall) (hsr : 0 < s.sr)
    (h : s.dest ≤ s.value) :
    (Randos.SlewLimiter.Process s).value ≤ s.value ∧
    s.dest ≤ (Randos.SlewLimiter.Process s).value := by
  simp only [Randos.SlewLimiter.Process]
  split_ifs with h1 h2 h3 h4 <;> try dsimp only
  · exact absurd h1 (not_lt.mpr (by linarith))
  · exact absurd h1 (not_lt.mpr (by linarith))
  · exact ⟨h, le_refl _⟩
  · have hstep : (s.dest - s.value) / (s.fall * s.sr) < 0 :=
      div_neg_of_neg_of_pos h3 (mul_pos hf hsr)
    push_neg at h4
    rw [abs_of_neg hstep, abs_of_neg h3] at h4
    exact ⟨by linarith, by linarith⟩
  · exact ⟨le_refl _, h⟩

/-- Once the Randos slew value equals the destination it stays there. -/
lemma randos_slew_step_fix (s : SlewState) (h : s.value = s.dest) :
    (Randos.SlewLimiter.Process s).value = s.dest := by
  simp only [Randos.SlewLimiter.Process]
  split_ifs <;> try dsimp only
  all_goals linarith

/-- The pod slew step moves the value up toward (never past) the
destination when it starts below it. -/
lemma pod_slew_step_up (s : SlewState) (hsr : 0 < s.sr)
    (h : s.value ≤ s.dest) :
    s.value ≤ (PodFZ.SlewLimiter.Process s).value ∧
    (PodFZ.SlewLimiter.Process s).value ≤ s.dest := by
  simp only [PodFZ.SlewLimiter.Process]
  have hge : s.dest - s.value ≥ 0 := by linarith
  rw [if_pos hge]
  split_ifs with h1 h2 <;> try dsimp only
  · exact ⟨h, le_refl _⟩
  · exact ⟨h, le_refl _⟩
  · push_neg at h1
    have hrpos : 0 < s.rise := lt_of_lt_of_le (by norm_num) h1
    have hstep : 0 ≤ (s.dest - s.value) / (s.rise * s.sr) :=
      div_nonneg hge (le_of_lt (mul_pos hrpos hsr))
    push_neg at h2
    rw [abs_of_nonneg hstep, abs_of_nonneg hge] at h2
    exact ⟨by linarith, by linarith⟩

/-- The pod slew step moves the value down toward (never past) the
destination when it starts above it. -/
lemma pod_slew_step_down (s : SlewState) (hsr : 0 < s.sr)
    (h : s.dest ≤ s.value) :
    (PodFZ.SlewLimiter.Process s).value ≤ s.value ∧
    s.dest ≤ (PodFZ.SlewLimiter.Process s).value := by
  simp only [PodFZ.SlewLimiter.Process]
  rcases eq_or_lt_of_le h with heq | hlt
  · have hge : s.dest - s.value ≥ 0 := by linarith
    rw [if_pos hge]
    have hd0 : s.dest - s.value = 0 := by linarith
    split_ifs with h1 h2 <;> try dsimp only
    · exact ⟨by linarith, le_refl _⟩
    · exact ⟨by linarith, le_refl _⟩
    · rw [hd0, zero_div]
      exact ⟨by linarith, by linarith⟩
  · have hge : ¬ (s.dest - s.value ≥ 0) := by simp; linarith
    rw [if_neg hge]
    split_ifs with h1 h2 <;> try dsimp only
    · exact ⟨h, le_refl _⟩
    · exact ⟨h, le_refl _⟩
    · push_neg at h1
      have hfpos : 0 < s.fall := lt_of_lt_of_le (by norm_num) h1
      have hd : s.dest - s.value < 0 := by linarith
      have hstep : (s.dest - s.value) / (s.fall * s.sr) < 0 :=
        div_neg_of_neg_of_pos hd (mul_pos hfpos hsr)
      push_neg at h2
      rw [abs_of_neg hstep, abs_of_neg hd] at h2
      exact ⟨by linarith, by linarith⟩

/-- Once the pod slew value equals the destination it stays there. -/
lemma pod_slew_step_fix (s : SlewState) (hsr : 0 < s.sr) (h : s.value = s.dest) :
    (PodFZ.SlewLimiter.Process s).value = s.dest := by
  have := pod_slew_step_up s hsr (le_of_eq h)
  have := pod_slew_step_down s hsr (ge_of_eq h)
  linarith [this.1, this.2]

/-- Iterating any slew step that preserves the configuration fields and
moves the value toward the destination without overshoot yields a
monotone, bounded, eventually-fixed output sequence. -/
lemma slew_iter_spec (P : SlewState → SlewState)
    (hfields : ∀ t : SlewState, (P t).rise = t.rise ∧ (P t).fall = t.fall ∧
      (P t).sr = t.sr ∧ (P t).dest = t.dest)
    (hup : ∀ t : SlewState, 0 < t.rise → 0 < t.sr → t.value ≤ t.dest →
      t.value ≤ (P t).value ∧ (P t).value ≤ t.dest)
    (hdown : ∀ t : SlewState, 0 < t.fall → 0 < t.sr → t.dest ≤ t.value →
      (P t).value ≤ t.value ∧ t.dest ≤ (P t).value)
    (hfix : ∀ t : SlewState, 0 < t.sr → t.value = t.dest → (P t).value = t.dest)
    (s : SlewState) (hr : 0 < s.rise) (hf : 0 < s.fall) (hsr : 0 < s.sr) :
    (s.value ≤ s.dest → ∀ n : ℕ,
      (P^[n] s).value ≤ (P^[n + 1] s).value ∧ (P^[n] s).value ≤ s.dest) ∧
    (s.dest ≤ s.value → ∀ n : ℕ,
      (P^[n + 1] s).value ≤ (P^[n] s).value ∧ s.dest ≤ (P^[n] s).value) ∧
    (∀ n m : ℕ, (P^[n] s).value = s.dest → n ≤ m →
      (P^[m] s).value = s.dest) := by
  have hIter : ∀ n : ℕ, (P^[n] s).rise = s.rise ∧ (P^[n] s).fall = s.fall ∧
      (P^[n] s).sr = s.sr ∧ (P^[n] s).dest = s.dest := by
    intro n
    induction n with
    | zero => exact ⟨rfl, rfl, rfl, rfl⟩
    | succ n ih =>
      rw [Function.iterate_succ_apply']
      obtain ⟨hr1, hf1, hs1, hd1⟩ := hfields (P^[n] s)
      exact ⟨hr1.trans ih.1, hf1.trans ih.2.1, hs1.trans ih.2.2.1, hd1.trans ih.2.2.2⟩
  refine ⟨?_, ?_, ?_⟩
  · intro h
    have hbound : ∀ n : ℕ, (P^[n] s).value ≤ s.dest := by
      intro n
      induction n with
      | zero => exact h
      | succ n ih =>
        rw [Function.iterate_succ_apply']
        obtain ⟨hrn, hfn, hsn, hdn⟩ := hIter n
        have hstep := hup (P^[n] s) (by rw [hrn]; exact hr) (by rw [hsn]; exact hsr)
          (by rw [hdn]; exact ih)
        calc (P (P^[n] s)).value ≤ (P^[n] s).dest := hstep.2
          _ = s.dest := hdn
    intro n
    obtain ⟨hrn, hfn, hsn, hdn⟩ := hIter n
    have hstep := hup (P^[n] s) (by rw [hrn]; exact hr) (by rw [hsn]; exact hsr)
      (by rw [hdn]; exact hbound n)
    rw [Function.iterate_succ_apply']
    exact ⟨hstep.1, hbound n⟩
  · intro h
    have hbound : ∀ n : ℕ, s.dest ≤ (P^[n] s).value := by
      intro n
      induction n with
      | zero => exact h
      | succ n ih =>
        rw [Function.iterate_succ_apply']
        obtain ⟨hrn, hfn, hsn, hdn⟩ := hIter n
        have hstep := hdown (P^[n] s) (by rw [hfn]; exact hf) (by rw [hsn]; exact hsr)
          (by rw [hdn]; exact ih)
        calc s.dest = (P^[n] s).dest := hdn.symm
          _ ≤ (P (P^[n] s)).value := hstep.2
    intro n
    obtain ⟨hrn, hfn, hsn, hdn⟩ := hIter n
    have hstep := hdown (P^[n] s) (by rw [hfn]; exact hf) (by rw [hsn]; exact hsr)
      (by rw [hdn]; exact hbound n)
    rw [Function.iterate_succ_apply']
    exact ⟨hstep.1, hbound n⟩
  · intro n m hval hnm
    obtain ⟨k, rfl⟩ := Nat.exists_eq_add_of_le hnm
    induction k with
    | zero => exact hval
    | succ k ih =>
      have hs1 : n + (k + 1) = (n + k) + 1 := by ring
      rw [hs1, Function.iterate_succ_apply']
      obtain ⟨hrn, hfn, hsn, hdn⟩ := hIter (n + k)
      have hv := hfix (P^[n + k] s) (by rw [hsn]; exact hsr)
        (by rw [hdn]; exact ih (Nat.le_add_right n k))
      rw [hv]
      exact hdn

/-- Claim C4: for both slew limiters (Randos/patch, and pod), with
positive rise, fall and sample rate, the iterated Process outputs move
monotonically from the starting value toward the destination, never pass
it, and once the output equals the destination every later output equals
it. -/
theorem slew_monotone_no_overshoot (s : SlewState)
    (hr : 0 < s.rise) (hf : 0 < s.fall) (hsr : 0 < s.sr) :
    ((s.value ≤ s.dest → ∀ n : ℕ,
        (Randos.SlewLimiter.Process^[n] s).value ≤
          (Randos.SlewLimiter.Process^[n + 1] s).value ∧
        (Randos.SlewLimiter.Process^[n] s).value ≤ s.dest) ∧
      (s.dest ≤ s.value → ∀ n : ℕ,
        (Randos.SlewLimiter.Process^[n + 1] s).value ≤
          (Randos.SlewLimiter.Process^[n] s).value ∧
        s.dest ≤ (Randos.SlewLimiter.Process^[n] s).value) ∧
      (∀ n m : ℕ, (Randos.SlewLimiter.Process^[n] s).value = s.dest → n ≤ m →
        (Randos.SlewLimiter.Process^[m] s).value = s.dest)) ∧
    ((s.value ≤ s.dest → ∀ n : ℕ,
        (PodFZ.SlewLimiter.Process^[n] s).value ≤
          (PodFZ.SlewLimiter.Process^[n + 1] s).value ∧
        (PodFZ.SlewLimiter.Process^[n] s).value ≤ s.dest) ∧
      (s.dest ≤ s.value → ∀ n : ℕ,
        (PodFZ.SlewLimiter.Process^[n + 1] s).value ≤
          (PodFZ.SlewLimiter.Process^[n] s).value ∧
        s.dest ≤ (PodFZ.SlewLimiter.Process^[n] s).value) ∧
      (∀ n m : ℕ, (PodFZ.SlewLimiter.Process^[n] s).value = s.dest → n ≤ m →
        (PodFZ.SlewLimiter.Process^[m] s).value = s.dest)) := by
  constructor
  · exact slew_iter_spec Randos.SlewLimiter.Process randos_slew_fields
      (fun t htr hts h => randos_slew_step_up t htr hts h)
      (fun t htf hts h => randos_slew_step_down t htf hts h)
      (fun t _ h => randos_slew_step_fix t h) s hr hf hsr
  · exact slew_iter_spec PodFZ.SlewLimiter.Process pod_slew_fields
      (fun t _ hts h => pod_slew_step_up t hts h)
      (fun t _ hts h => pod_slew_step_down t hts h)
      (fun t hts h => pod_slew_step_fix t hts h) s hr hf hsr

/-- Witness for slew_monotone_no_overshoot at a rising concrete state. -/
theorem slew_monotone_no_overshoot_witness :
    (Randos.SlewLimiter.Process^[0] (⟨48000, 0, 1, 1/100, 1/100⟩ : SlewState)).value ≤
      (Randos.SlewLimiter.Process^[0 + 1] (⟨48000, 0, 1, 1/100, 1/100⟩ : SlewState)).value ∧
    (Randos.SlewLimiter.Process^[0] (⟨48000, 0, 1, 1/100, 1/100⟩ : SlewState)).value ≤
      (⟨48000, 0, 1, 1/100, 1/100⟩ : SlewState).dest :=
  (slew_monotone_no_overshoot ⟨48000, 0, 1, 1/100, 1/100⟩
    (by norm_num) (by norm_num) (by norm_num)).1.1 (by norm_num) 0

/-- The Perlin fade polynomial maps [0, 1) into [0, 1): it is nonnegative
there and 1 - Fade t factors as (1-t)^3 * (6t^2+3t+1) > 0. -/
lemma fade_bounds (t : ℚ) (h0 : 0 ≤ t) (h1 : t < 1) :
    0 ≤ PatchFZ.Fade t ∧ PatchFZ.Fade t < 1 := by
  constructor
  · have hq : 0 < t * (t * 6 - 15) + 10 := by nlinarith [sq_nonneg (4 * t - 5)]
    have ht3 : 0 ≤ t * t * t := by positivity
    exact mul_nonneg ht3 (le_of_lt hq)
  · have hfac : 1 - PatchFZ.Fade t = (1 - t) ^ 3 * (6 * t ^ 2 + 3 * t + 1) := by
      simp only [PatchFZ.Fade]; ring
    have hp1 : 0 < (1 - t) ^ 3 := pow_pos (by linarith) 3
    have hp2 : 0 < 6 * t ^ 2 + 3 * t + 1 := by nlinarith [sq_nonneg (4 * t + 1)]
    nlinarith [mul_pos hp1 hp2]

/-- The 1-D gradient only flips the sign, so it preserves magnitudes. -/
lemma Grad1D_abs (h : Nat) (d : ℚ) : |PatchFZ.Grad1D h d| = |d| := by
  unfold PatchFZ.Grad1D
  split_ifs <;> simp

/-- PerlinNoise1D output is strictly inside (-1, 1): the interpolation
weights (1-u) and u are in (0, 1] resp. [0, 1) and the two gradients have
magnitudes t and 1-t for the fractional part t in [0, 1). -/
lemma perlin_abs_lt_one (x : ℚ) : |PatchFZ.PerlinNoise1D x| < 1 := by
  have h0 : 0 ≤ x - (⌊x⌋ : ℚ) := by linarith [Int.floor_le x]
  have h1 : x - (⌊x⌋ : ℚ) < 1 := by linarith [Int.lt_floor_add_one x]
  obtain ⟨hu0, hu1⟩ := fade_bounds (x - (⌊x⌋ : ℚ)) h0 h1
  simp only [PatchFZ.PerlinNoise1D]
  set t := x - (⌊x⌋ : ℚ) with ht
  set u := PatchFZ.Fade t with hu
  set g1 := PatchFZ.Grad1D (PatchFZ.s_permAt (⌊x⌋ % 256).toNat) t with hg1
  set g2 := PatchFZ.Grad1D (PatchFZ.s_permAt ((⌊x⌋ % 256).toNat + 1)) (t - 1) with hg2
  have hag1 : |g1| = t := by rw [hg1, Grad1D_abs, abs_of_nonneg h0]
  have hag2 : |g2| = 1 - t := by
    rw [hg2, Grad1D_abs, abs_of_nonpos (by linarith)]
    ring
  calc |(1 - u) * g1 + u * g2| ≤ |(1 - u) * g1| + |u * g2| := abs_add _ _
    _ = (1 - u) * t + u * (1 - t) := by
        rw [abs_mul, abs_mul, abs_of_nonneg (by linarith : (0:ℚ) ≤ 1 - u),
          abs_of_nonneg hu0, hag1, hag2]
    _ < 1 := by nlinarith [mul_pos (by linarith : (0:ℚ) < 1 - t) (by linarith : (0:ℚ) < 1 - u),
        mul_nonneg hu0 h0]

/-- Geometric bound on the fBm octave loop: starting with a positive
amplitude, the accumulated sum over n+1 octaves is strictly below
amp * (1 - gain^(n+1)) / (1 - gain) when 0 < gain < 1. -/
lemma fBm1Dgo_bound (x lac g : ℚ) (hg0 : 0 < g) (hg1 : g < 1) :
    ∀ (n : ℕ) (freq amp : ℚ), 0 < amp →
      |PatchFZ.fBm1Dgo x lac g (n + 1) freq amp| < amp * (1 - g ^ (n + 1)) / (1 - g) := by
  intro n
  induction n with
  | zero =>
    intro freq amp hamp
    have hP := perlin_abs_lt_one (x * freq)
    have : PatchFZ.fBm1Dgo x lac g 1 freq amp
        = PatchFZ.PerlinNoise1D (x * freq) * amp := by
      show PatchFZ.PerlinNoise1D (x * freq) * amp
          + PatchFZ.fBm1Dgo x lac g 0 (freq * lac) (amp * g)
        = PatchFZ.PerlinNoise1D (x * freq) * amp
      show PatchFZ.PerlinNoise1D (x * freq) * amp + 0
        = PatchFZ.PerlinNoise1D (x * freq) * amp
      rw [add_zero]
    rw [this, abs_mul, abs_of_pos hamp]
    have h2 : |PatchFZ.PerlinNoise1D (x * freq)| * amp < 1 * amp :=
      mul_lt_mul_of_pos_right hP hamp
    have hne : (1 : ℚ) - g ≠ 0 := by linarith
    have h3 : amp * (1 - g ^ 1) / (1 - g) = amp := by
      rw [pow_one, mul_div_assoc, div_self hne, mul_one]
    rw [h3]
    linarith
  | succ n ih =>
    intro freq amp hamp
    have hP := perlin_abs_lt_one (x * freq)
    have hrec : PatchFZ.fBm1Dgo x lac g (n + 2) freq amp
        = PatchFZ.PerlinNoise1D (x * freq) * amp
          + PatchFZ.fBm1Dgo x lac g (n + 1) (freq * lac) (amp * g) := rfl
    have hih := ih (freq * lac) (amp * g) (mul_pos hamp hg0)
    have habs1 : |PatchFZ.PerlinNoise1D (x * freq) * amp| < amp := by
      rw [abs_mul, abs_of_pos hamp]
      calc |PatchFZ.PerlinNoise1D (x * freq)| * amp < 1 * amp :=
        mul_lt_mul_of_pos_right hP hamp
        _ = amp := one_mul amp
    have hne : (1 : ℚ) - g ≠ 0 := by linarith
    have hsum : amp + amp * g * (1 - g ^ (n + 1)) / (1 - g)
        = amp * (1 - g ^ (n + 2)) / (1 - g) := by
      field_simp
      ring
    calc |PatchFZ.fBm1Dgo x lac g (n + 2) freq amp|
        ≤ |PatchFZ.PerlinNoise1D (x * freq) * amp|
          + |PatchFZ.fBm1Dgo x lac g (n + 1) (freq * lac) (amp * g)| := by
          rw [hrec]; exact abs_add _ _
      _ < amp + amp * g * (1 - g ^ (n + 1)) / (1 - g) := by linarith
      _ = amp * (1 - g ^ (n + 2)) / (1 - g) := hsum

/-- Claim C8: every PerlinNoise1D value lies in [-1, 1], and for at least
one octave and any gain strictly between 0 and 1 the fBm sum is strictly
below the geometric bound (1 - gain^octaves) / (1 - gain) in magnitude,
for every input and every lacunarity. -/
theorem perlin_range_fbm_bound :
    (∀ x : ℚ, -1 ≤ PatchFZ.PerlinNoise1D x ∧ PatchFZ.PerlinNoise1D x ≤ 1) ∧
    (∀ (x : ℚ) (octaves : ℕ) (lacunarity gain : ℚ), 1 ≤ octaves →
      0 < gain → gain < 1 →
      |PatchFZ.fBm1D x octaves lacunarity gain|
        < (1 - gain ^ octaves) / (1 - gain)) := by
  constructor
  · intro x
    have h := abs_lt.mp (perlin_abs_lt_one x)
    exact ⟨by linarith [h.1], by linarith [h.2]⟩
  · intro x octaves lac g hoct hg0 hg1
    obtain ⟨n, rfl⟩ : ∃ n, octaves = n + 1 := ⟨octaves - 1, by omega⟩
    have := fBm1Dgo_bound x lac g hg0 hg1 n 1 1 one_pos
    simpa [PatchFZ.fBm1D] using this

/-- Witness for perlin_range_fbm_bound: one octave, gain 1/2, at x = 0. -/
theorem perlin_range_fbm_bound_witness :
    |PatchFZ.fBm1D 0 1 2 (1/2)| < (1 - (1/2 : ℚ) ^ 1) / (1 - 1/2) :=
  perlin_range_fbm_bound.2 0 1 2 (1/2) (le_refl 1) (by norm_num) (by norm_num)

/-- The raw rounded semitone of QuantizeCV lies in [0, 12]: the fractional
part is in [0, 1), so frac * 12 is in [0, 12) and rounding can reach 12
but not exceed it. -/
lemma quantizeCV_raw_bounds (v : ℝ) :
    0 ≤ JustInTone.QuantizeCV.rawSemitone v ∧
    JustInTone.QuantizeCV.rawSemitone v ≤ 12 := by
  unfold JustInTone.QuantizeCV.rawSemitone
  have h0 : 0 ≤ v - (⌊v⌋ : ℝ) := by linarith [Int.floor_le v]
  have h1 : v - (⌊v⌋ : ℝ) < 1 := by linarith [Int.lt_floor_add_one v]
  constructor
  · rw [round_eq]
    exact Int.floor_nonneg.mpr (by nlinarith)
  · rw [round_eq]
    have h13 : ⌊(v - (⌊v⌋ : ℝ)) * 12 + 1 / 2⌋ < 13 :=
      Int.floor_lt.mpr (by push_cast; nlinarith)
    omega

/-- After carry handling the semitone index of QuantizeCV is in [0, 11]. -/
lemma quantizeCV_semitone_bounds (v : ℝ) :
    0 ≤ JustInTone.QuantizeCV.semitone v ∧
    JustInTone.QuantizeCV.semitone v ≤ 11 := by
  obtain ⟨h0, h12⟩ := quantizeCV_raw_bounds v
  unfold JustInTone.QuantizeCV.semitone
  split_ifs with h
  · exact ⟨le_refl 0, by norm_num⟩
  · push_neg at h
    exact ⟨h0, by omega⟩

/-- Claim C10: for every input CV (negative included, and fractional parts
that round up to semitone 12) the carry-handled semitone index of
QuantizeCV lies in [0, 11], so the 12-entry just-intonation ratio table is
always accessed in bounds and the function is total. -/
theorem quantizeCV_semitone_in_bounds (v : ℝ) :
    0 ≤ JustInTone.QuantizeCV.semitone v ∧
    JustInTone.QuantizeCV.semitone v ≤ 11 ∧
    (JustInTone.QuantizeCV.semitone v).toNat < JustInTone.justRatios.length := by
  obtain ⟨h0, h11⟩ := quantizeCV_semitone_bounds v
  refine ⟨h0, h11, ?_⟩
  have hlen : JustInTone.justRatios.length = 12 := by decide
  rw [hlen]
  omega

/-- Claim C9 counterexample: the free-mode quantizer QuantizeFractal maps
values to frequencies, so applying it twice saturates at the top of its
range instead of being idempotent (0 maps to 1025 Hz, which re-quantizes
to 2000 Hz); the pod just-major mapper fails the same way (0 maps to
220 Hz, which re-quantizes to 825 Hz). -/
theorem quantizeFractal_not_idempotent :
    PatchFZ.QuantizeFractal (PatchFZ.QuantizeFractal 0) ≠ PatchFZ.QuantizeFractal 0 ∧
    PodFZ.QuantizeJustMajor (PodFZ.QuantizeJustMajor 0) ≠ PodFZ.QuantizeJustMajor 0 := by
  constructor
  · norm_num [PatchFZ.QuantizeFractal]
  · have h1 : PodFZ.QuantizeJustMajor 0 = 220 := by
      norm_num [PodFZ.QuantizeJustMajor, PodFZ.majorJust7_scale, PodFZ.gBaseFreq]
    have h2 : PodFZ.QuantizeJustMajor 220 = 825 := by
      norm_num [PodFZ.QuantizeJustMajor, PodFZ.majorJust7_scale, PodFZ.gBaseFreq]
      show 55 * (8 * (15 / 8 : ℚ)) = 825
      norm_num
    rw [h1, h2]
    norm_num

/-- Base-2 logarithms of ratios in [1, 2) lie in [0, 1). -/
lemma logb_bounds_of_ratio (r : ℝ) (h1 : 1 ≤ r) (h2 : r < 2) :
    0 ≤ Real.logb 2 r ∧ Real.logb 2 r < 1 := by
  constructor
  · exact Real.logb_nonneg one_lt_two h1
  · calc Real.logb 2 r < Real.logb 2 2 :=
        Real.logb_lt_logb one_lt_two (by linarith) h2
      _ = 1 := Real.logb_self_eq_one one_lt_two

/-- Rounding 12 * log2 r hits the integer s exactly when r^24 lies
strictly between 2^(2s-1) and 2^(2s+1); the power bounds are phrased
multiplied by 2 to stay in natural exponents. -/
lemma round_logb_scaled (r : ℝ) (s : ℕ) (hr : 0 < r)
    (hlo : (2 : ℝ) ^ (2 * s) < 2 * r ^ 24)
    (hhi : 2 * r ^ 24 < (2 : ℝ) ^ (2 * s + 2)) :
    round (12 * Real.logb 2 r) = (s : ℤ) := by
  have hb : (1 : ℝ) < 2 := one_lt_two
  have hr24 : (0 : ℝ) < r ^ 24 := pow_pos hr 24
  have hmul : Real.logb 2 (2 * r ^ 24) = 1 + 24 * Real.logb 2 r := by
    rw [Real.logb_mul (by norm_num) (ne_of_gt hr24), Real.logb_self_eq_one hb,
      Real.logb_pow]
    norm_num
  have e1 : Real.logb 2 ((2 : ℝ) ^ (2 * s)) = ((2 * s : ℕ) : ℝ) := by
    rw [Real.logb_pow, Real.logb_self_eq_one hb, mul_one]
  have e2 : Real.logb 2 ((2 : ℝ) ^ (2 * s + 2)) = ((2 * s + 2 : ℕ) : ℝ) := by
    rw [Real.logb_pow, Real.logb_self_eq_one hb, mul_one]
  have hlog_lo := Real.logb_lt_logb hb (pow_pos two_pos (2 * s)) hlo
  have hlog_hi := Real.logb_lt_logb hb (by linarith) hhi
  rw [e1, hmul] at hlog_lo
  rw [e2, hmul] at hlog_hi
  have hlow : (s : ℝ) - 1 / 2 < 12 * Real.logb 2 r := by push_cast at hlog_lo ⊢; linarith
  have hhigh : 12 * Real.logb 2 r < (s : ℝ) + 1 / 2 := by push_cast at hlog_hi ⊢; linarith
  rw [round_eq]
  rw [Int.floor_eq_iff]
  constructor
  · push_cast
    linarith
  · push_cast
    linarith

/-- If the fractional offset f is in [0, 1) and f * 12 rounds to s, then
the octave and raw semitone that QuantizeCV extracts from oct + f are
exactly oct and s. -/
lemma quantizeCV_frac_fix (oct : ℤ) (f : ℝ) (h0 : 0 ≤ f) (h1 : f < 1)
    (s : ℤ) (hs : round (f * 12) = s) :
    ⌊(oct : ℝ) + f⌋ = oct ∧
    JustInTone.QuantizeCV.rawSemitone ((oct : ℝ) + f) = s := by
  have hfl : ⌊(oct : ℝ) + f⌋ = oct := by
    rw [Int.floor_int_add, Int.floor_eq_zero_iff.mpr ⟨h0, h1⟩, add_zero]
  refine ⟨hfl, ?_⟩
  unfold JustInTone.QuantizeCV.rawSemitone
  rw [hfl]
  have hf : (oct : ℝ) + f - (oct : ℝ) = f := by ring
  rw [hf]
  exact hs

/-- Carry handling applied to oct + f when the raw semitone is below 12. -/
lemma quantizeCV_nocarry (w : ℝ) (oct s : ℤ) (hfl : ⌊w⌋ = oct)
    (hraw : JustInTone.QuantizeCV.rawSemitone w = s) (h11 : s ≤ 11) :
    JustInTone.QuantizeCV.octaveAdj w = oct ∧
    JustInTone.QuantizeCV.semitone w = s := by
  constructor
  · unfold JustInTone.QuantizeCV.octaveAdj
    rw [hraw, if_neg (by omega)]
    unfold JustInTone.QuantizeCV.octave
    exact hfl
  · unfold JustInTone.QuantizeCV.semitone
    rw [hraw, if_neg (by omega)]

/-- Equal-temperament outputs of QuantizeCV are fixed points: the CV
oct + s/12 with s in [0, 11] re-quantizes to itself. -/
lemma quantizeCV_output_et_fix (oct : ℤ) (s : ℤ) (h0 : 0 ≤ s) (h11 : s ≤ 11) :
    JustInTone.QuantizeCV ((oct : ℝ) + (s : ℝ) / 12) false
      = (oct : ℝ) + (s : ℝ) / 12 := by
  have hf0 : (0 : ℝ) ≤ (s : ℝ) / 12 := by
    apply div_nonneg _ (by norm_num)
    exact_mod_cast h0
  have hf1 : (s : ℝ) / 12 < 1 := by
    rw [div_lt_one (by norm_num)]
    exact_mod_cast lt_of_le_of_lt h11 (by norm_num)
  have hs : round ((s : ℝ) / 12 * 12) = s := by
    have h : (s : ℝ) / 12 * 12 = (s : ℝ) := by field_simp
    rw [h, round_intCast]
  obtain ⟨hfl, hraw⟩ := quantizeCV_frac_fix oct _ hf0 hf1 s hs
  obtain ⟨hadj, hsem⟩ := quantizeCV_nocarry _ oct s hfl hraw h11
  simp only [JustInTone.QuantizeCV, Bool.not_false, if_true, hadj, hsem]

/-- Just-intonation outputs of QuantizeCV are fixed points, given the
numeric facts about the ratio r sitting at index sN of the table: r is in
[1, 2) and r^24 lies strictly between 2^(2 sN - 1) and 2^(2 sN + 1). -/
lemma quantizeCV_just_out (oct : ℤ) (sN : ℕ) (hsN : sN ≤ 11) (r : ℚ)
    (hget : JustInTone.justRatios.getD sN 0 = r)
    (h1 : 1 ≤ r) (h2 : r < 2)
    (hlo : (2 : ℝ) ^ (2 * sN) < 2 * (r : ℝ) ^ 24)
    (hhi : 2 * (r : ℝ) ^ 24 < (2 : ℝ) ^ (2 * sN + 2)) :
    JustInTone.QuantizeCV ((oct : ℝ) + Real.logb 2 (r : ℝ)) true
      = (oct : ℝ) + Real.logb 2 (r : ℝ) := by
  have h1R : (1 : ℝ) ≤ (r : ℝ) := by exact_mod_cast h1
  have h2R : (r : ℝ) < 2 := by exact_mod_cast h2
  have hr0 : (0 : ℝ) < (r : ℝ) := by linarith
  obtain ⟨hL0, hL1⟩ := logb_bounds_of_ratio (r : ℝ) h1R h2R
  have hround : round (Real.logb 2 (r : ℝ) * 12) = (sN : ℤ) := by
    rw [mul_comm]
    exact round_logb_scaled (r : ℝ) sN hr0 hlo hhi
  obtain ⟨hfl, hraw⟩ := quantizeCV_frac_fix oct _ hL0 hL1 (sN : ℤ) hround
  obtain ⟨hadj, hsem⟩ := quantizeCV_nocarry _ oct (sN : ℤ) hfl hraw (by omega)
  have hget2 : JustInTone.justRatios[sN]?.getD 0 = r := by simpa using hget
  simp [JustInTone.QuantizeCV, hadj, hsem, hget2]

/-- The just-intonation branch of QuantizeCV re-quantizes its own output
to itself, for every octave and every semitone index in [0, 11]. -/
lemma quantizeCV_output_just_fix (oct : ℤ) (s : ℤ) (h0 : 0 ≤ s) (h11 : s ≤ 11) :
    JustInTone.QuantizeCV
        ((oct : ℝ) + Real.logb 2 ((JustInTone.justRatios.getD s.toNat 0 : ℚ) : ℝ)) true
      = (oct : ℝ) + Real.logb 2 ((JustInTone.justRatios.getD s.toNat 0 : ℚ) : ℝ) := by
  interval_cases s
  · exact quantizeCV_just_out oct 0 (by norm_num) 1 rfl (by norm_num) (by norm_num)
      (by push_cast; norm_num) (by push_cast; norm_num)
  · exact quantizeCV_just_out oct 1 (by norm_num) (16/15) rfl (by norm_num) (by norm_num)
      (by push_cast; norm_num) (by push_cast; norm_num)
  · exact quantizeCV_just_out oct 2 (by norm_num) (9/8) rfl (by norm_num) (by norm_num)
      (by push_cast; norm_num) (by push_cast; norm_num)
  · exact quantizeCV_just_out oct 3 (by norm_num) (6/5) rfl (by norm_num) (by norm_num)
      (by push_cast; norm_num) (by push_cast; norm_num)
  · exact quantizeCV_just_out oct 4 (by norm_num) (5/4) rfl (by norm_num) (by norm_num)
      (by push_cast; norm_num) (by push_cast; norm_num)
  · exact quantizeCV_just_out oct 5 (by norm_num) (4/3) rfl (by norm_num) (by norm_num)
      (by push_cast; norm_num) (by push_cast; norm_num)
  · exact quantizeCV_just_out oct 6 (by norm_num) (45/32) rfl (by norm_num) (by norm_num)
      (by push_cast; norm_num) (by push_cast; norm_num)
  · exact quantizeCV_just_out oct 7 (by norm_num) (3/2) rfl (by norm_num) (by norm_num)
      (by push_cast; norm_num) (by push_cast; norm_num)
  · exact quantizeCV_just_out oct 8 (by norm_num) (8/5) rfl (by norm_num) (by norm_num)
      (by push_cast; norm_num) (by push_cast; norm_num)
  · exact quantizeCV_just_out oct 9 (by norm_num) (5/3) rfl (by norm_num) (by norm_num)
      (by push_cast; norm_num) (by push_cast; norm_num)
  · exact quantizeCV_just_out oct 10 (by norm_num) (9/5) rfl (by norm_num) (by norm_num)
      (by push_cast; norm_num) (by push_cast; norm_num)
  · exact quantizeCV_just_out oct 11 (by norm_num) (15/8) rfl (by norm_num) (by norm_num)
      (by push_cast; norm_num) (by push_cast; norm_num)

/-- Claim C9 amended: the CV-to-CV quantizer QuantizeCV is idempotent in
both of its modes (equal temperament and just intonation), for every real
input CV. -/
theorem quantizeCV_idempotent (v : ℝ) (useJustIntonation : Bool) :
    JustInTone.QuantizeCV (JustInTone.QuantizeCV v useJustIntonation) useJustIntonation
      = JustInTone.QuantizeCV v useJustIntonation := by
  obtain ⟨hs0, hs11⟩ := quantizeCV_semitone_bounds v
  cases useJustIntonation
  · have hunf : JustInTone.QuantizeCV v false
        = (JustInTone.QuantizeCV.octaveAdj v : ℝ)
          + (JustInTone.QuantizeCV.semitone v : ℝ) / 12 := by
      simp [JustInTone.QuantizeCV]
    rw [hunf]
    exact quantizeCV_output_et_fix _ _ hs0 hs11
  · have hunf : JustInTone.QuantizeCV v true
        = (JustInTone.QuantizeCV.octaveAdj v : ℝ)
          + Real.logb 2
              ((JustInTone.justRatios.getD
                (JustInTone.QuantizeCV.semitone v).toNat 0 : ℚ) : ℝ) := by
      simp [JustInTone.QuantizeCV]
    rw [hunf]
    exact quantizeCV_output_just_fix _ _ hs0 hs11
